import Mathlib

/-!
Verification of the command builder and launcher in `src/main.py`
(`download_bilibili_video`).

The Python function builds a command token list for invoking the external
`yutto` downloader, ensures the output directory exists, prints diagnostic
lines, runs the child process with an augmented environment, and reports the
exit status on the console.  Below we give a shallow embedding of each of
these pieces and prove the spec's claims about them.
-/

/-- A Python value as it can arrive through `**kwargs`: `None`, a boolean,
an integer or a string.  These cover every value the wrapped options take. -/
inductive PyVal : Type
  | VNone : PyVal
  | VBool : Bool → PyVal
  | VInt : Int → PyVal
  | VStr : String → PyVal
deriving DecidableEq, Repr

/-- Python `str(v)` on the values of `PyVal`. -/
def pyStr : PyVal → String
  | PyVal.VNone => "None"
  | PyVal.VBool b => if b then "True" else "False"
  | PyVal.VInt n => toString n
  | PyVal.VStr s => s

/-- Python truthiness on the values of `PyVal` (`bool(v)`). -/
def pyTruthy : PyVal → Bool
  | PyVal.VNone => false
  | PyVal.VBool b => b
  | PyVal.VInt n => n ≠ 0
  | PyVal.VStr s => s ≠ ""

/-- The `**kwargs` mapping: an association list of keyword arguments.
Python keyword arguments have pairwise distinct keys; lookups below use the
first binding, so the model is faithful on such lists. -/
abbrev Kwargs : Type := List (String × PyVal)

/-- Dictionary lookup: `kwargs[k]` when `k in kwargs`, else `none`
(the Python test `param in kwargs`). -/
def kwLookup (k : String) : Kwargs → Option PyVal
  | [] => Option.none
  | (k', v) :: rest => if k' = k then some v else kwLookup k rest

/-- `main.py` lines 109-118: the `param_mapping` dict, in its literal
(insertion) order, which is the order Python iterates it in. -/
def param_mapping : List (String × String) :=
  [("video_quality", "--video-quality"),
   ("audio_quality", "--audio-quality"),
   ("num_workers", "--num-workers"),
   ("danmaku_format", "--danmaku-format"),
   ("proxy", "--proxy"),
   ("sessdata", "--sessdata"),
   ("vcodec", "--vcodec"),
   ("acodec", "--acodec")]

/-- `main.py` lines 121-124: the body of the `param_mapping` loop.  When
`param in kwargs and kwargs[param] is not None`, the flag and `str(value)`
are appended to the command; otherwise the command is unchanged. -/
def optStep (kwargs : Kwargs) (c : List String) (p : String × String) :
    List String :=
  match kwLookup p.1 kwargs with
  | some v => if v = PyVal.VNone then c else c ++ [p.2, pyStr v]
  | Option.none => c

/-- `main.py` lines 96-128: construction of the command token list `cmd`.
Each `let` mirrors one append statement of the source:
base command, `--batch` when `batch`, `--episodes <e>` when `episodes` is
truthy (present and non-empty), the `param_mapping` loop (`optStep`), and
finally `--overwrite` when `kwargs.get("overwrite", False)` is truthy. -/
def buildCmd (python_exe url output_dir : String) (batch : Bool)
    (episodes : Option String) (kwargs : Kwargs) : List String :=
  let cmd := [python_exe, "-m", "yutto", url, "--dir", output_dir]
  let cmd := if batch then cmd ++ ["--batch"] else cmd
  let cmd := match episodes with
    | some e => if e = "" then cmd else cmd ++ ["--episodes", e]
    | Option.none => cmd
  let cmd := param_mapping.foldl (optStep kwargs) cmd
  if pyTruthy ((kwLookup "overwrite" kwargs).getD (PyVal.VBool false)) then
    cmd ++ ["--overwrite"]
  else cmd

/-- The tokens the `--batch` step contributes. -/
def batchSeg (batch : Bool) : List String :=
  if batch then ["--batch"] else []

/-- The tokens the `--episodes` step contributes. -/
def epsSeg : Option String → List String
  | some e => if e = "" then [] else ["--episodes", e]
  | Option.none => []

/-- The tokens one `param_mapping` entry contributes for a given `kwargs`. -/
def optEntry (kwargs : Kwargs) (p : String × String) : List String :=
  match kwLookup p.1 kwargs with
  | some v => if v = PyVal.VNone then [] else [p.2, pyStr v]
  | Option.none => []

/-- The tokens the whole `param_mapping` loop contributes. -/
def optsSeg (kwargs : Kwargs) : List String :=
  (param_mapping.map (optEntry kwargs)).flatten

/-- The tokens the final `--overwrite` step contributes. -/
def owSeg (kwargs : Kwargs) : List String :=
  if pyTruthy ((kwLookup "overwrite" kwargs).getD (PyVal.VBool false)) then
    ["--overwrite"]
  else []

/-- Python `" ".join(cmd)` (`main.py` line 136). -/
def joinSpace : List String → String
  | [] => ""
  | [s] => s
  | s :: rest => s ++ " " ++ joinSpace rest

/-- `main.py` lines 130-136: the diagnostic lines printed before the child
process is launched, in order, with the fully assembled command last. -/
def printedLines (url output_dir : String) (batch : Bool)
    (episodes : Option String) (cmd : List String) : List String :=
  ["开始下载: " ++ url,
   "下载目录: " ++ output_dir,
   "批量模式: " ++ (if batch then "启用" else "禁用")]
  ++ (match episodes with
      | some e => if e = "" then [] else ["选集范围: " ++ e]
      | Option.none => [])
  ++ ["执行命令: " ++ joinSpace cmd]

/-- `main.py` lines 145-149: the message printed after the child process
exits, as a function of `result.returncode`. -/
def handleResult (returncode : Int) : String :=
  if returncode = 0 then "下载完成!"
  else "下载失败，返回码: " ++ toString returncode

/-- `main.py` lines 138-140: the environment handed to the child process.
The parent environment is copied and `PYTHONPATH` is set to the local source
path, a `";"` separator, and the previous value (empty string when unset);
every other variable is the parent's. -/
def childEnv (srcPath : String) (parent : String → Option String) :
    String → Option String :=
  fun k =>
    if k = "PYTHONPATH" then
      some (srcPath ++ ";" ++ ((parent "PYTHONPATH").getD ""))
    else parent k

/-- `main.py` line 94: `Path(output_dir).mkdir(parents=True, exist_ok=True)`.
A filesystem is modelled as the list of existing directories, each a list of
path components; `mkdir(parents=True, exist_ok=True)` makes every prefix of
the path exist and never fails on an existing directory. -/
def mkdirP (fs : List (List String)) (p : List String) : List (List String) :=
  p.inits.foldl (fun acc d => if d ∈ acc then acc else acc ++ [d]) fs

/-- `needle` occurs verbatim inside `hay` (plaintext containment). -/
def strContains (hay needle : String) : Prop :=
  ∃ a b : String, hay = a ++ needle ++ b

/-! ## Helper lemmas -/

lemma kwLookup_mem {k : String} {v : PyVal} :
    ∀ {kw : Kwargs}, kwLookup k kw = some v → (k, v) ∈ kw := by
  intro kw
  induction kw with
  | nil => intro h; simp [kwLookup] at h
  | cons kv t ih =>
      intro h
      rw [kwLookup] at h
      by_cases hk : kv.1 = k
      · rw [if_pos hk] at h
        cases kv
        simp_all
      · rw [if_neg hk] at h
        exact List.mem_cons_of_mem _ (ih h)

lemma optStep_eq (kw : Kwargs) (c : List String) (p : String × String) :
    optStep kw c p = c ++ optEntry kw p := by
  unfold optStep optEntry
  cases kwLookup p.1 kw with
  | none => simp
  | some v => by_cases hv : v = PyVal.VNone <;> simp [hv]

lemma foldl_optStep (kw : Kwargs) :
    ∀ (l : List (String × String)) (c : List String),
      l.foldl (optStep kw) c = c ++ (l.map (optEntry kw)).flatten := by
  intro l
  induction l with
  | nil => intro c; simp
  | cons p t ih =>
      intro c
      simp only [List.foldl_cons, List.map_cons, List.flatten_cons]
      rw [optStep_eq, ih, List.append_assoc]

lemma buildCmd_segments (py url dir : String) (b : Bool) (e : Option String)
    (kw : Kwargs) :
    buildCmd py url dir b e kw =
      [py, "-m", "yutto", url, "--dir", dir] ++ batchSeg b ++ epsSeg e
        ++ optsSeg kw ++ owSeg kw := by
  by_cases how :
    pyTruthy ((kwLookup "overwrite" kw).getD (PyVal.VBool false)) = true
  all_goals cases b
  all_goals rcases e with _ | s
  all_goals try by_cases hs : s = ""
  all_goals
    simp [buildCmd, foldl_optStep, optsSeg, owSeg, batchSeg, epsSeg, how,
      List.append_assoc, *]

lemma mem_optsSeg {s : String} {kw : Kwargs} (h : s ∈ optsSeg kw) :
    (∃ p, p ∈ param_mapping ∧ s = p.2) ∨ ∃ kv, kv ∈ kw ∧ s = pyStr kv.2 := by
  obtain ⟨l, hl, hs⟩ := List.mem_flatten.mp h
  obtain ⟨p, hp, rfl⟩ := List.mem_map.mp hl
  cases hkl : kwLookup p.1 kw with
  | none => simp [optEntry, hkl] at hs
  | some v =>
      simp only [optEntry, hkl] at hs
      by_cases hv : v = PyVal.VNone
      · rw [if_pos hv] at hs; simp at hs
      · rw [if_neg hv] at hs
        simp only [List.mem_cons, List.mem_singleton] at hs
        rcases hs with rfl | rfl | hs
        · exact Or.inl ⟨p, hp, rfl⟩
        · exact Or.inr ⟨(p.1, v), kwLookup_mem hkl, rfl⟩
        · simp at hs

lemma optEntry_mem_value (flag : String) {kw : Kwargs} {key : String}
    {v : PyVal}
    (hkl : kwLookup key kw = some v) (hv : v ≠ PyVal.VNone)
    (hp : (key, flag) ∈ param_mapping) : pyStr v ∈ optsSeg kw := by
  apply List.mem_flatten.mpr
  refine ⟨optEntry kw (key, flag), List.mem_map_of_mem _ hp, ?_⟩
  simp [optEntry, hkl, hv]

lemma kwLookup_perm (k : String) :
    ∀ {kw₁ kw₂ : Kwargs}, kw₁.Perm kw₂ → (kw₁.map Prod.fst).Nodup →
      kwLookup k kw₁ = kwLookup k kw₂ := by
  intro kw₁ kw₂ h
  induction h with
  | nil => intro _; rfl
  | cons x _ ih =>
      intro nd
      simp only [List.map_cons, List.nodup_cons] at nd
      simp only [kwLookup]
      rw [ih nd.2]
  | swap x y t =>
      intro nd
      simp only [List.map_cons, List.nodup_cons, List.mem_cons] at nd
      have hxy : y.1 ≠ x.1 := fun hcon => nd.1 (Or.inl hcon)
      by_cases hy : y.1 = k
      · have hx : ¬x.1 = k := fun hcon => hxy (hy.trans hcon.symm)
        simp [kwLookup, hy, hx]
      · simp [kwLookup, hy]
  | trans h₁ _ ih₁ ih₂ =>
      intro nd
      have nd₂ := ((h₁.map Prod.fst).nodup_iff).mp nd
      rw [ih₁ nd, ih₂ nd₂]

lemma buildCmd_congr {kw₁ kw₂ : Kwargs}
    (h : ∀ k, kwLookup k kw₁ = kwLookup k kw₂)
    (py url dir : String) (b : Bool) (e : Option String) :
    buildCmd py url dir b e kw₁ = buildCmd py url dir b e kw₂ := by
  have hstep : optStep kw₁ = optStep kw₂ := by
    funext c p
    simp only [optStep, h]
  simp only [buildCmd, hstep, h]

lemma strContains_append_left {t s : String} (pre : String)
    (h : strContains t s) : strContains (pre ++ t) s := by
  obtain ⟨a, b, rfl⟩ := h
  exact ⟨pre ++ a, b, by simp [String.append_assoc]⟩

lemma strContains_joinSpace {s : String} :
    ∀ {l : List String}, s ∈ l → strContains (joinSpace l) s := by
  intro l
  induction l with
  | nil => intro h; simp at h
  | cons x t ih =>
      intro h
      rcases List.mem_cons.mp h with rfl | ht
      · cases t with
        | nil => exact ⟨"", "", by simp [joinSpace]⟩
        | cons y u =>
            exact ⟨"", " " ++ joinSpace (y :: u), by
              simp [joinSpace, String.append_assoc]⟩
      · cases t with
        | nil => simp at ht
        | cons y u =>
            have h2 := strContains_append_left (x ++ " ") (ih ht)
            simpa [joinSpace] using h2

lemma not_mem_base {t py url dir : String}
    (hpy : py ≠ t) (hurl : url ≠ t) (hdir : dir ≠ t)
    (hm : t ≠ "-m") (hy : t ≠ "yutto") (hd : t ≠ "--dir") :
    t ∉ [py, "-m", "yutto", url, "--dir", dir] := by
  intro hmem
  simp only [List.mem_cons, List.not_mem_nil, or_false] at hmem
  rcases hmem with h | h | h | h | h | h
  · exact hpy h.symm
  · exact hm h
  · exact hy h
  · exact hurl h.symm
  · exact hd h
  · exact hdir h.symm

lemma not_mem_batchSeg {t : String} (hb : t ≠ "--batch") (b : Bool) :
    t ∉ batchSeg b := by
  cases b
  · simp [batchSeg]
  · simpa [batchSeg] using hb

lemma not_mem_epsSeg {t : String} {e : Option String} (hf : t ≠ "--episodes")
    (hval : ∀ s, e = some s → s ≠ t) : t ∉ epsSeg e := by
  rcases e with _ | s
  · simp [epsSeg]
  · by_cases hs : s = ""
    · simp [epsSeg, hs]
    · simp only [epsSeg, if_neg hs]
      intro hmem
      rcases List.mem_cons.mp hmem with h | h
      · exact hf h
      · exact hval s rfl (List.mem_singleton.mp h).symm

lemma not_mem_optsSeg {t : String} {kw : Kwargs}
    (hflag : ∀ p ∈ param_mapping, p.2 ≠ t)
    (hvals : ∀ kv ∈ kw, pyStr kv.2 ≠ t) : t ∉ optsSeg kw := by
  intro hmem
  rcases mem_optsSeg hmem with ⟨p, hp, heq⟩ | ⟨kv, hkv, heq⟩
  · exact hflag p hp heq.symm
  · exact hvals kv hkv heq.symm

lemma not_mem_owSeg {t : String} (kw : Kwargs) (h : t ≠ "--overwrite") :
    t ∉ owSeg kw := by
  unfold owSeg
  split
  · simpa using h
  · simp

lemma mem_foldl_insertStep {x : List String} :
    ∀ (l : List (List String)) (acc : List (List String)), x ∈ acc →
      x ∈ l.foldl (fun acc d => if d ∈ acc then acc else acc ++ [d]) acc := by
  intro l
  induction l with
  | nil => intro acc h; exact h
  | cons d t ih =>
      intro acc h
      simp only [List.foldl_cons]
      apply ih
      by_cases hd : d ∈ acc
      · rw [if_pos hd]; exact h
      · rw [if_neg hd]; exact List.mem_append_left _ h

lemma mem_foldl_insertStep_self {x : List String} :
    ∀ (l : List (List String)) (acc : List (List String)), x ∈ l →
      x ∈ l.foldl (fun acc d => if d ∈ acc then acc else acc ++ [d]) acc := by
  intro l
  induction l with
  | nil => intro acc h; simp at h
  | cons d t ih =>
      intro acc h
      simp only [List.foldl_cons]
      rcases List.mem_cons.mp h with rfl | ht
      · apply mem_foldl_insertStep
        by_cases hd : x ∈ acc
        · rw [if_pos hd]; exact hd
        · rw [if_neg hd]
          exact List.mem_append_right _ (List.mem_singleton.mpr rfl)
      · exact ih _ ht

lemma foldl_insertStep_of_mem :
    ∀ (l : List (List String)) (acc : List (List String)),
      (∀ d ∈ l, d ∈ acc) →
      l.foldl (fun acc d => if d ∈ acc then acc else acc ++ [d]) acc = acc := by
  intro l
  induction l with
  | nil => intro acc _; rfl
  | cons d t ih =>
      intro acc h
      simp only [List.foldl_cons]
      rw [if_pos (h d (List.mem_cons_self d t))]
      exact ih acc (fun x hx => h x (List.mem_cons_of_mem _ hx))

/-! ## Claim theorems -/

/-- C1: the command token sequence follows the fixed construction order —
base invocation with the URL and `--dir`, then `--batch` iff batch, then
`--episodes` if supplied, then the mapped options in the fixed
`param_mapping` order, then the overwrite flag last; and on the spec's
example inputs the built list is exactly base + URL, `--dir downloads`,
`--batch`, `--episodes 1-3`, `--video-quality 80`, `--overwrite` in that
relative order. -/
theorem C1_construction_order :
    (∀ (py url dir : String) (b : Bool) (e : Option String) (kw : Kwargs),
      buildCmd py url dir b e kw =
        [py, "-m", "yutto", url, "--dir", dir] ++ batchSeg b ++ epsSeg e
          ++ optsSeg kw ++ owSeg kw)
    ∧ ∀ py : String,
        buildCmd py "https://example.com/v/1" "downloads" true (some "1-3")
          [("video_quality", PyVal.VInt 80), ("overwrite", PyVal.VBool true)] =
        [py, "-m", "yutto", "https://example.com/v/1", "--dir", "downloads",
         "--batch", "--episodes", "1-3", "--video-quality", "80",
         "--overwrite"] := by
  constructor
  · exact buildCmd_segments
  · intro py
    rfl

/-- C2: keys outside the recognized set contribute no token (adding such a
binding leaves the command unchanged, with no error since the builder is
total); a recognized key that is absent or bound to `None` contributes no
token; a recognized non-null key contributes exactly the pair
`--<flag-name> <stringified value>`; and the whole command decomposes into
the segments these entries generate. -/
theorem C2_options_mapping :
    ∀ (py url dir : String) (b : Bool) (e : Option String) (kw : Kwargs)
      (k : String) (v : PyVal),
      (k ∉ param_mapping.map Prod.fst → k ≠ "overwrite" →
        buildCmd py url dir b e ((k, v) :: kw) = buildCmd py url dir b e kw)
      ∧ (∀ p ∈ param_mapping, kwLookup p.1 kw = Option.none →
          optEntry kw p = [])
      ∧ (∀ p ∈ param_mapping, kwLookup p.1 kw = some PyVal.VNone →
          optEntry kw p = [])
      ∧ (∀ p ∈ param_mapping, ∀ w, kwLookup p.1 kw = some w →
          w ≠ PyVal.VNone → optEntry kw p = [p.2, pyStr w])
      ∧ buildCmd py url dir b e kw =
          [py, "-m", "yutto", url, "--dir", dir] ++ batchSeg b ++ epsSeg e
            ++ optsSeg kw ++ owSeg kw := by
  intro py url dir b e kw k v
  refine ⟨?_, ?_, ?_, ?_, buildCmd_segments py url dir b e kw⟩
  · intro hk hov
    simp only [param_mapping, List.map_cons, List.map_nil, List.mem_cons,
      List.not_mem_nil, or_false, not_or] at hk
    obtain ⟨h1, h2, h3, h4, h5, h6, h7, h8⟩ := hk
    rw [buildCmd_segments, buildCmd_segments]
    have hopts : optsSeg ((k, v) :: kw) = optsSeg kw := by
      simp only [optsSeg, param_mapping, List.map_cons, List.map_nil]
      simp [optEntry, kwLookup, h1, h2, h3, h4, h5, h6, h7, h8]
    have how : owSeg ((k, v) :: kw) = owSeg kw := by
      simp [owSeg, kwLookup, hov]
    rw [hopts, how]
  · intro p _ hkl
    simp [optEntry, hkl]
  · intro p _ hkl
    simp [optEntry, hkl]
  · intro p _ w hkl hw
    simp [optEntry, hkl, hw]

/-- Witness for C2 at concrete inputs: the unrecognized key `bogus` changes
nothing, and the recognized key `proxy` contributes exactly
`--proxy no`. -/
theorem C2_options_mapping_witness :
    "bogus" ∉ param_mapping.map Prod.fst ∧ "bogus" ≠ "overwrite" ∧
    buildCmd "python" "u" "d" false Option.none
        [("bogus", PyVal.VInt 7), ("proxy", PyVal.VStr "no")] =
      buildCmd "python" "u" "d" false Option.none
        [("proxy", PyVal.VStr "no")] ∧
    optEntry [("proxy", PyVal.VStr "no")] ("proxy", "--proxy") =
      ["--proxy", "no"] :=
  ⟨by decide, by decide,
   (C2_options_mapping "python" "u" "d" false Option.none
      [("proxy", PyVal.VStr "no")] "bogus" (PyVal.VInt 7)).1
     (by decide) (by decide),
   (C2_options_mapping "python" "u" "d" false Option.none
      [("proxy", PyVal.VStr "no")] "bogus" (PyVal.VInt 7)).2.2.2.1
     ("proxy", "--proxy") (by decide) (PyVal.VStr "no") (by decide)
     (by decide)⟩

/-- Counterexample to C3 as stated: with the overwrite option absent the
claim says `--overwrite` appears nowhere in the built command, yet calling
the builder with the URL `--overwrite` puts that token in the command. -/
theorem C3_counterexample :
    kwLookup "overwrite" ([] : Kwargs) = Option.none ∧
    "--overwrite" ∈
      buildCmd "python" "--overwrite" "./downloads" false Option.none [] := by
  constructor
  · rfl
  · decide

/-- C3 (amended): provided none of the interpreter path, URL, output
directory, episodes string or stringified option values is the literal
`--overwrite`, the flag is absent from the command whenever the supplied
overwrite value is falsy, and appears exactly once, as the final token,
whenever it is truthy. -/
theorem C3_overwrite_flag :
    ∀ (py url dir : String) (b : Bool) (e : Option String) (kw : Kwargs),
      py ≠ "--overwrite" → url ≠ "--overwrite" → dir ≠ "--overwrite" →
      (∀ s, e = some s → s ≠ "--overwrite") →
      (∀ kv ∈ kw, pyStr kv.2 ≠ "--overwrite") →
      (pyTruthy ((kwLookup "overwrite" kw).getD (PyVal.VBool false)) = false →
        "--overwrite" ∉ buildCmd py url dir b e kw)
      ∧ (pyTruthy ((kwLookup "overwrite" kw).getD (PyVal.VBool false)) = true →
          List.count "--overwrite" (buildCmd py url dir b e kw) = 1 ∧
          (buildCmd py url dir b e kw).getLast? = some "--overwrite") := by
  intro py url dir b e kw hpy hurl hdir heps hvals
  have hbase := not_mem_base hpy hurl hdir (t := "--overwrite")
    (by decide) (by decide) (by decide)
  have hbatch := not_mem_batchSeg (t := "--overwrite") (by decide) b
  have heps' := not_mem_epsSeg (t := "--overwrite") (by decide) heps
  have hopts := not_mem_optsSeg (t := "--overwrite") (by decide) hvals
  have hnot : "--overwrite" ∉
      [py, "-m", "yutto", url, "--dir", dir] ++ batchSeg b ++ epsSeg e
        ++ optsSeg kw := by
    intro hmem
    rcases List.mem_append.mp hmem with hmem | hmem
    · rcases List.mem_append.mp hmem with hmem | hmem
      · rcases List.mem_append.mp hmem with hmem | hmem
        · exact hbase hmem
        · exact hbatch hmem
      · exact heps' hmem
    · exact hopts hmem
  constructor
  · intro hfalse hmem
    rw [buildCmd_segments] at hmem
    have how : owSeg kw = [] := by simp [owSeg, hfalse]
    rw [how, List.append_nil] at hmem
    exact hnot hmem
  · intro htrue
    have how : owSeg kw = ["--overwrite"] := by simp [owSeg, htrue]
    constructor
    · rw [buildCmd_segments, how, List.count_append]
      rw [List.count_eq_zero.mpr hnot]
      decide
    · rw [buildCmd_segments, how]
      exact List.getLast?_concat _

/-- Witness for C3 at concrete inputs: with `overwrite=True` supplied, the
flag is counted once and is the last token. -/
theorem C3_overwrite_flag_witness :
    pyTruthy ((kwLookup "overwrite"
        [("overwrite", PyVal.VBool true)]).getD (PyVal.VBool false)) = true ∧
    List.count "--overwrite"
        (buildCmd "python" "u" "d" false Option.none
          [("overwrite", PyVal.VBool true)]) = 1 ∧
    (buildCmd "python" "u" "d" false Option.none
        [("overwrite", PyVal.VBool true)]).getLast? = some "--overwrite" :=
  ⟨by decide,
   (C3_overwrite_flag "python" "u" "d" false Option.none
      [("overwrite", PyVal.VBool true)] (by decide) (by decide) (by decide)
      (by intro s h; cases h) (by decide)).2 (by decide)⟩

/-- Counterexample to C4 as stated: with episodes absent the claim says no
`--episodes` token appears, yet calling the builder with the URL
`--episodes` puts that token in the command. -/
theorem C4_counterexample :
    "--episodes" ∈
      buildCmd "python" "--episodes" "d" false Option.none [] := by
  decide

/-- C4 (amended): provided none of the interpreter path, URL, output
directory or stringified option values is the literal `--episodes` or
`1,3,5`, an absent episodes argument produces no `--episodes` token, and
`episodes="1,3,5"` produces the tokens `--episodes` and `1,3,5` exactly
once each, adjacent and in that order. -/
theorem C4_episodes_tokens :
    ∀ (py url dir : String) (b : Bool) (kw : Kwargs),
      py ≠ "--episodes" → url ≠ "--episodes" → dir ≠ "--episodes" →
      py ≠ "1,3,5" → url ≠ "1,3,5" → dir ≠ "1,3,5" →
      (∀ kv ∈ kw, pyStr kv.2 ≠ "--episodes") →
      (∀ kv ∈ kw, pyStr kv.2 ≠ "1,3,5") →
      ("--episodes" ∉ buildCmd py url dir b Option.none kw)
      ∧ List.count "--episodes"
          (buildCmd py url dir b (some "1,3,5") kw) = 1
      ∧ List.count "1,3,5" (buildCmd py url dir b (some "1,3,5") kw) = 1
      ∧ ["--episodes", "1,3,5"] <:+:
          buildCmd py url dir b (some "1,3,5") kw := by
  intro py url dir b kw hpy hurl hdir hpy' hurl' hdir' hvals hvals'
  have hbase := not_mem_base hpy hurl hdir (t := "--episodes")
    (by decide) (by decide) (by decide)
  have hbase' := not_mem_base hpy' hurl' hdir' (t := "1,3,5")
    (by decide) (by decide) (by decide)
  have hbatch := not_mem_batchSeg (t := "--episodes") (by decide) b
  have hbatch' := not_mem_batchSeg (t := "1,3,5") (by decide) b
  have hopts := not_mem_optsSeg (t := "--episodes") (by decide) hvals
  have hopts' := not_mem_optsSeg (t := "1,3,5") (by decide) hvals'
  have how := not_mem_owSeg (t := "--episodes") kw (by decide)
  have how' := not_mem_owSeg (t := "1,3,5") kw (by decide)
  have heseg : epsSeg (some "1,3,5") = ["--episodes", "1,3,5"] := by
    simp [epsSeg]
  refine ⟨?_, ?_, ?_, ?_⟩
  · intro hmem
    rw [buildCmd_segments] at hmem
    rcases List.mem_append.mp hmem with hmem | hmem
    · rcases List.mem_append.mp hmem with hmem | hmem
      · rcases List.mem_append.mp hmem with hmem | hmem
        · rcases List.mem_append.mp hmem with hmem | hmem
          · exact hbase hmem
          · exact hbatch hmem
        · simp [epsSeg] at hmem
      · exact hopts hmem
    · exact how hmem
  · rw [buildCmd_segments, heseg]
    simp only [List.count_append]
    rw [List.count_eq_zero.mpr hbase, List.count_eq_zero.mpr hbatch,
      List.count_eq_zero.mpr hopts, List.count_eq_zero.mpr how]
    decide
  · rw [buildCmd_segments, heseg]
    simp only [List.count_append]
    rw [List.count_eq_zero.mpr hbase', List.count_eq_zero.mpr hbatch',
      List.count_eq_zero.mpr hopts', List.count_eq_zero.mpr how']
    decide
  · rw [buildCmd_segments, heseg]
    have hinf := List.infix_append
      ([py, "-m", "yutto", url, "--dir", dir] ++ batchSeg b)
      ["--episodes", "1,3,5"] (optsSeg kw ++ owSeg kw)
    simpa [List.append_assoc] using hinf

/-- Witness for C4 at concrete inputs. -/
theorem C4_episodes_tokens_witness :
    ("--episodes" ∉ buildCmd "python" "u" "d" false Option.none [])
    ∧ List.count "--episodes"
        (buildCmd "python" "u" "d" false (some "1,3,5") []) = 1
    ∧ List.count "1,3,5" (buildCmd "python" "u" "d" false (some "1,3,5") []) = 1
    ∧ ["--episodes", "1,3,5"] <:+:
        buildCmd "python" "u" "d" false (some "1,3,5") [] :=
  C4_episodes_tokens "python" "u" "d" false [] (by decide) (by decide)
    (by decide) (by decide) (by decide) (by decide)
    (by intro kv h; cases h) (by intro kv h; cases h)

/-- C5: the result handler prints a completion message when the child exits
with status 0, and for any non-zero status it prints the failure message
(the source's literal text for "failure, return code: ") followed by the
numeric code, which therefore appears verbatim in the message. -/
theorem C5_exit_reporting :
    handleResult 0 = "下载完成!" ∧
    ∀ rc : Int, rc ≠ 0 →
      handleResult rc = "下载失败，返回码: " ++ toString rc ∧
      strContains (handleResult rc) (toString rc) := by
  constructor
  · rfl
  · intro rc hrc
    constructor
    · simp [handleResult, hrc]
    · exact ⟨"下载失败，返回码: ", "", by simp [handleResult, hrc]⟩

/-- Witness for C5 at exit code 1: the failure message contains the
literal `1`. -/
theorem C5_exit_reporting_witness :
    handleResult 1 = "下载失败，返回码: " ++ toString (1 : Int) ∧
    strContains (handleResult 1) (toString (1 : Int)) :=
  C5_exit_reporting.2 1 (by decide)

/-- C6: after `mkdir(parents=True, exist_ok=True)` on a path, that path and
every prefix of it exist, previously existing directories still exist, and
running it again on the same path changes nothing (idempotent, no error). -/
theorem C6_mkdir_idempotent :
    ∀ (fs : List (List String)) (p : List String),
      (∀ q, q <+: p → q ∈ mkdirP fs p) ∧
      (∀ d ∈ fs, d ∈ mkdirP fs p) ∧
      mkdirP (mkdirP fs p) p = mkdirP fs p := by
  intro fs p
  refine ⟨?_, ?_, ?_⟩
  · intro q hq
    exact mem_foldl_insertStep_self _ _ ((List.mem_inits q p).mpr hq)
  · intro d hd
    exact mem_foldl_insertStep _ _ hd
  · exact foldl_insertStep_of_mem _ _
      (fun d hd => mem_foldl_insertStep_self _ _ hd)

/-- Witness for C6 on the path `a/b`: the directory and its parent exist
afterwards and a second call is a no-op. -/
theorem C6_mkdir_idempotent_witness :
    ["a"] ∈ mkdirP [] ["a", "b"] ∧
    mkdirP (mkdirP [] ["a", "b"]) ["a", "b"] = mkdirP [] ["a", "b"] :=
  ⟨(C6_mkdir_idempotent [] ["a", "b"]).1 ["a"] (by decide),
   (C6_mkdir_idempotent [] ["a", "b"]).2.2⟩

/-- C7: command construction is deterministic and independent of the order
in which the caller supplied the option keys: permuting a duplicate-free
kwargs mapping leaves the built token sequence unchanged. -/
theorem C7_deterministic :
    ∀ (py url dir : String) (b : Bool) (e : Option String)
      (kw₁ kw₂ : Kwargs),
      kw₁.Perm kw₂ → (kw₁.map Prod.fst).Nodup →
      buildCmd py url dir b e kw₁ = buildCmd py url dir b e kw₂ := by
  intro py url dir b e kw₁ kw₂ hperm hnd
  exact buildCmd_congr (fun k => kwLookup_perm k hperm hnd) py url dir b e

/-- Witness for C7: swapping the two supplied options yields the same
command. -/
theorem C7_deterministic_witness :
    ([("overwrite", PyVal.VBool true), ("video_quality", PyVal.VInt 80)].map
        Prod.fst).Nodup ∧
    buildCmd "python" "u" "d" false Option.none
        [("overwrite", PyVal.VBool true), ("video_quality", PyVal.VInt 80)] =
      buildCmd "python" "u" "d" false Option.none
        [("video_quality", PyVal.VInt 80), ("overwrite", PyVal.VBool true)] :=
  ⟨by decide,
   C7_deterministic "python" "u" "d" false Option.none _ _
     (List.Perm.swap ("video_quality", PyVal.VInt 80)
       ("overwrite", PyVal.VBool true) []) (by decide)⟩

/-- C8: the child environment equals the parent environment on every
variable except `PYTHONPATH`, which becomes the local source path prepended
(with a `;` separator) to the previous value. -/
theorem C8_child_env :
    ∀ (srcPath : String) (parent : String → Option String),
      childEnv srcPath parent "PYTHONPATH" =
        some (srcPath ++ ";" ++ ((parent "PYTHONPATH").getD "")) ∧
      ∀ k, k ≠ "PYTHONPATH" → childEnv srcPath parent k = parent k := by
  intro src parent
  constructor
  · simp [childEnv]
  · intro k hk
    simp [childEnv, hk]

/-- Witness for C8 on a concrete parent environment and the variable
`HOME`. -/
theorem C8_child_env_witness :
    "HOME" ≠ "PYTHONPATH" ∧
    childEnv "/app/src"
        (fun k => if k = "HOME" then some "/root" else Option.none) "HOME" =
      (fun k => if k = "HOME" then some "/root" else Option.none) "HOME" :=
  ⟨by decide,
   (C8_child_env "/app/src"
      (fun k => if k = "HOME" then some "/root" else Option.none)).2
     "HOME" (by decide)⟩

/-- C9: supplying `episodes=""` behaves exactly like omitting episodes —
the built command is identical, the episodes step contributes nothing, and
the printed diagnostics contain no episode-selection line. -/
theorem C9_empty_episodes :
    ∀ (py url dir : String) (b : Bool) (kw : Kwargs) (cmd : List String),
      buildCmd py url dir b (some "") kw =
        buildCmd py url dir b Option.none kw ∧
      epsSeg (some "") = [] ∧
      printedLines url dir b (some "") cmd =
        printedLines url dir b Option.none cmd := by
  intro py url dir b kw cmd
  refine ⟨?_, by simp [epsSeg], ?_⟩
  · simp [buildCmd]
  · simp [printedLines]

/-- C10: the fully assembled, space-joined command is always one of the
printed diagnostic lines, and whenever a non-null sessdata credential is
supplied its stringified value occurs in plaintext inside that line. -/
theorem C10_plaintext_command :
    ∀ (py url dir : String) (b : Bool) (e : Option String) (kw : Kwargs)
      (v : PyVal),
      ("执行命令: " ++ joinSpace (buildCmd py url dir b e kw)) ∈
        printedLines url dir b e (buildCmd py url dir b e kw) ∧
      (kwLookup "sessdata" kw = some v → v ≠ PyVal.VNone →
        strContains
          ("执行命令: " ++ joinSpace (buildCmd py url dir b e kw))
          (pyStr v)) := by
  intro py url dir b e kw v
  constructor
  · simp [printedLines]
  · intro hkl hv
    have hmem : pyStr v ∈ buildCmd py url dir b e kw := by
      rw [buildCmd_segments]
      have hin := optEntry_mem_value "--sessdata" hkl hv (by decide)
      exact List.mem_append_left _ (List.mem_append_right _ hin)
    exact strContains_append_left _ (strContains_joinSpace hmem)

/-- Witness for C10: a concrete sessdata value appears in the printed
command line. -/
theorem C10_plaintext_command_witness :
    kwLookup "sessdata" [("sessdata", PyVal.VStr "SECRET")] =
      some (PyVal.VStr "SECRET") ∧
    strContains
      ("执行命令: " ++ joinSpace (buildCmd "python" "u" "d" false Option.none
        [("sessdata", PyVal.VStr "SECRET")]))
      (pyStr (PyVal.VStr "SECRET")) :=
  ⟨by decide,
   (C10_plaintext_command "python" "u" "d" false Option.none
      [("sessdata", PyVal.VStr "SECRET")] (PyVal.VStr "SECRET")).2
     (by decide) (by decide)⟩
